import Mathlib

/-!
Verification development for the capsel dependency-injection runtime.

The definitions below are a shallow embedding of the repository's source:
scopes and injection markers (src/src/types.ts, src/src/kernel-invoke.ts),
module creation and the inject operation (src/src/modules.ts), the
dev-stability concern (src/src/concerns/devstable.ts), and the invoke-kernel
discovery chain (src/src/kernel-invoke.ts together with kernel-current,
kernel-als and kernel-global). Parts of the repository whose implementation
files are not present (the Kernel class proper and the memoization engine)
are modelled from the specification; their doc comments say so explicitly.
-/

namespace Capsel

/-- Lifecycle scopes, from src/src/types.ts: singleton, invoke, transient. -/
inductive Scope where
  | singleton
  | invoke
  | transient
deriving DecidableEq, Repr

/-- A Kernel (container). The Kernel class implementation file is not part of
the sources at hand; modelled from the spec: containers form a tree, each
container has its own identity and records the root of its container family.
The id field models JavaScript object identity of the container. -/
structure Kernel where
  id : Nat
  rootId : Nat
deriving DecidableEq, Repr

/-- Modelled from the spec: the scoped() operation derives a child container
from a parent; the child is a brand-new object (fresh identity) belonging to
the same container family as the parent. The fresh identity is supplied by
the ambient allocator. -/
def Kernel.scoped (k : Kernel) (fresh : Nat) : Kernel :=
  ⟨fresh, k.rootId⟩

/-- Modelled from the spec: new Kernel() constructs a brand-new empty root
container; it is the root of its own (fresh) family. -/
def newKernel (fresh : Nat) : Kernel :=
  ⟨fresh, fresh⟩

/-- The ambient state consulted by getInvokeKernel (src/src/kernel-invoke.ts):
the per-invocation current-kernel function (src/src/kernel-current.ts,
represented by the kernel it returns when set), the kernel bound in the
AsyncLocalStorage carrier (src/src/kernel-als.ts), and the process-wide
global kernel (src/src/kernel-global.ts). nextId is the allocator for fresh
container identities. -/
structure InvokeEnv where
  currentKernelFn : Option Kernel
  alsKernel : Option Kernel
  globalKernel : Option Kernel
  nextId : Nat
deriving DecidableEq, Repr

/-- Well-formedness of the ambient state: every already-allocated container
identity is below the allocator, in particular the global kernel's. -/
def InvokeEnv.wf (env : InvokeEnv) : Prop :=
  match env.globalKernel with
  | some g => g.id < env.nextId
  | none => True

instance (env : InvokeEnv) : Decidable env.wf := by
  unfold InvokeEnv.wf
  cases env.globalKernel <;> infer_instance

/-- getInvokeKernel from src/src/kernel-invoke.ts:
getCurrentKernelFromFn() ?? getAlsKernel() ?? getGlobalKernel()?.scoped() ??
new Kernel(). Returns the discovered kernel together with the updated
allocator state. -/
def getInvokeKernel (env : InvokeEnv) : Kernel × InvokeEnv :=
  match env.currentKernelFn with
  | some k => (k, env)
  | none =>
    match env.alsKernel with
    | some k => (k, env)
    | none =>
      match env.globalKernel with
      | some g =>
          (g.scoped env.nextId,
            ⟨env.currentKernelFn, env.alsKernel, env.globalKernel, env.nextId + 1⟩)
      | none =>
          (newKernel env.nextId,
            ⟨env.currentKernelFn, env.alsKernel, env.globalKernel, env.nextId + 1⟩)

/-- C1: getInvokeKernel discovers a container by the fixed precedence chain,
re-evaluated from the current ambient state on each call: first the result of
the per-invocation current-kernel function if one is set, else the kernel
bound in the AsyncLocalStorage carrier, else a fresh scoped() child of the
registered global kernel (same family as the global kernel, never the global
kernel itself, and a distinct new child on every resolution), else a
brand-new empty Kernel. -/
theorem getInvokeKernel_precedence (env : InvokeEnv) (h : env.wf) :
    (∀ k, env.currentKernelFn = some k → getInvokeKernel env = (k, env)) ∧
    (env.currentKernelFn = none → ∀ k, env.alsKernel = some k →
      getInvokeKernel env = (k, env)) ∧
    (env.currentKernelFn = none → env.alsKernel = none →
      ∀ g, env.globalKernel = some g →
        (getInvokeKernel env).1.rootId = g.rootId ∧
        (getInvokeKernel env).1 ≠ g ∧
        (getInvokeKernel ((getInvokeKernel env).2)).1 ≠ (getInvokeKernel env).1) ∧
    (env.currentKernelFn = none → env.alsKernel = none → env.globalKernel = none →
      (getInvokeKernel env).1 = newKernel env.nextId) := by
  refine ⟨?_, ?_, ?_, ?_⟩
  · intro k hk
    simp [getInvokeKernel, hk]
  · intro hc k ha
    simp [getInvokeKernel, hc, ha]
  · intro hc ha g hg
    have hlt : g.id < env.nextId := by
      have := h
      unfold InvokeEnv.wf at this
      rw [hg] at this
      exact this
    refine ⟨?_, ?_, ?_⟩
    · simp [getInvokeKernel, hc, ha, hg, Kernel.scoped]
    · simp only [getInvokeKernel, hc, ha, hg, Kernel.scoped]
      intro heq
      have : env.nextId = g.id := congrArg Kernel.id heq
      omega
    · simp only [getInvokeKernel, hc, ha, hg, Kernel.scoped]
      intro heq
      have : env.nextId + 1 = env.nextId := congrArg Kernel.id heq
      omega
  · intro hc ha hg
    simp [getInvokeKernel, hc, ha, hg]

/-- Concrete instantiation of the precedence theorem: with only a global
kernel registered, discovery yields a fresh child of the global kernel's
family, distinct from the global kernel. -/
theorem getInvokeKernel_precedence_witness :
    (getInvokeKernel ⟨none, none, some ⟨0, 0⟩, 1⟩).1.rootId = 0 ∧
      (getInvokeKernel ⟨none, none, some ⟨0, 0⟩, 1⟩).1 ≠ (⟨0, 0⟩ : Kernel) :=
  ⟨((getInvokeKernel_precedence ⟨none, none, some ⟨0, 0⟩, 1⟩ (by decide)).2.2.1
      rfl rfl ⟨0, 0⟩ rfl).1,
   ((getInvokeKernel_precedence ⟨none, none, some ⟨0, 0⟩, 1⟩ (by decide)).2.2.1
      rfl rfl ⟨0, 0⟩ rfl).2.1⟩

/-- Role layers, from src/src/modules.ts: facade, service, repo, controller,
other. -/
inductive Layer where
  | facade
  | service
  | repo
  | controller
  | other
deriving DecidableEq, Repr

/-- String rendering of a layer name, as interpolated into the inject error
message in src/src/modules.ts. -/
def Layer.name : Layer → String
  | .facade => "facade"
  | .service => "service"
  | .repo => "repo"
  | .controller => "controller"
  | .other => "other"

/-- ClassBrand from src/src/modules.ts: the value stored under the BRAND
symbol on each role base class. -/
structure ClassBrand where
  moduleName : String
  layerName : Layer
deriving DecidableEq, Repr

/-- A module class as seen by inject at runtime (src/src/modules.ts): a class
carrying a BRAND static and a declared default scope static. The ref field
models JavaScript reference identity of the class object. -/
structure ModuleClassKey where
  ref : Nat
  brand : ClassBrand
  scope : Scope
deriving DecidableEq, Repr

/-- UnresolvedDependency from src/src/kernel-invoke.ts: the injection marker,
carrying the token (the class itself), a scope and an optional unwrap key. -/
structure UnresolvedDependency where
  token : ModuleClassKey
  scope : Scope
  unwrap : Option String
deriving DecidableEq, Repr

/-- tokenizedDependency from src/src/kernel-invoke.ts: constructs an
UnresolvedDependency from the class, the scope and the optional unwrap key. -/
def tokenizedDependency (defaultClass : ModuleClassKey) (scope : Scope)
    (unwrap : Option String) : UnresolvedDependency :=
  ⟨defaultClass, scope, unwrap⟩

/-- The inject function closed over moduleName inside createModule
(src/src/modules.ts): if the key's brand names a different module and its
layer is not facade, it throws; otherwise it returns
tokenizedDependency(key, scope ?? key.scope). Throwing is modelled with
Except.error carrying the thrown message. -/
def inject (moduleName : String) (key : ModuleClassKey) (scope : Option Scope) :
    Except String UnresolvedDependency :=
  if key.brand.moduleName ≠ moduleName ∧ key.brand.layerName ≠ Layer.facade then
    Except.error
      ("Cross-module " ++ key.brand.layerName.name ++
        " dependency is not allowed. Use a Facade. (Tried to inject a " ++
        key.brand.layerName.name ++ " from " ++ key.brand.moduleName ++
        " into " ++ moduleName ++ ")")
  else
    Except.ok (tokenizedDependency key (scope.getD key.scope) none)

/-- The six role base classes returned by createModule (src/src/modules.ts). -/
structure ModuleClasses where
  Facade : ModuleClassKey
  Service : ModuleClassKey
  Repo : ModuleClassKey
  Controller : ModuleClassKey
  Singleton : ModuleClassKey
  Class : ModuleClassKey
deriving DecidableEq, Repr

/-- createModule from src/src/modules.ts: declares the six role base classes
with their brands and default scopes. base allocates distinct reference
identities for the six class objects. -/
def createModule (moduleName : String) (base : Nat) : ModuleClasses :=
  ⟨⟨base, ⟨moduleName, Layer.facade⟩, Scope.transient⟩,
   ⟨base + 1, ⟨moduleName, Layer.service⟩, Scope.invoke⟩,
   ⟨base + 2, ⟨moduleName, Layer.repo⟩, Scope.invoke⟩,
   ⟨base + 3, ⟨moduleName, Layer.controller⟩, Scope.transient⟩,
   ⟨base + 4, ⟨moduleName, Layer.other⟩, Scope.singleton⟩,
   ⟨base + 5, ⟨moduleName, Layer.other⟩, Scope.transient⟩⟩

/-- C2 counterexample: inject does perform a runtime brand check. Injecting a
service-layer class branded with module Users into module Posts throws at
runtime (the call returns an error, not a marker), refuting the claim that
role-tag boundary violations are never reported by a runtime check. -/
theorem inject_throws_at_runtime_counterexample :
    (inject "Posts" ⟨0, ⟨"Users", Layer.service⟩, Scope.invoke⟩ none).isOk
      = false := by
  decide

/-- C2 (amended): inject reports a role-tag boundary violation both statically
and at runtime: the call throws exactly when the injected key is branded with
a different module name and its layer is not facade; for same-module keys and
for facade-layer keys it never throws. -/
theorem inject_runtime_brand_check (moduleName : String) (key : ModuleClassKey)
    (scope : Option Scope) :
    (inject moduleName key scope).isOk = false ↔
      (key.brand.moduleName ≠ moduleName ∧ key.brand.layerName ≠ Layer.facade) := by
  unfold inject
  split <;> simp_all [Except.isOk, Except.toBool]

/-- C3: inject and tokenizedDependency perform no resolution and construct no
instance of the key; tokenizedDependency returns a marker carrying exactly
the given class, scope and unwrap key, and whenever inject returns it returns
a marker carrying the key itself, the explicit scope override when given and
otherwise the key's own declared default scope, and no unwrap key. -/
theorem inject_returns_marker (c : ModuleClassKey) (s : Scope) (u : Option String)
    (moduleName : String) (key : ModuleClassKey) (scope : Option Scope)
    (d : UnresolvedDependency) (h : inject moduleName key scope = Except.ok d) :
    (tokenizedDependency c s u).token = c ∧
    (tokenizedDependency c s u).scope = s ∧
    (tokenizedDependency c s u).unwrap = u ∧
    d.token = key ∧ d.scope = scope.getD key.scope ∧ d.unwrap = none := by
  refine ⟨rfl, rfl, rfl, ?_⟩
  unfold inject at h
  split at h
  · cases h
  · cases h
    exact ⟨rfl, rfl, rfl⟩

/-- Concrete instantiation of the marker theorem: injecting the Service class
of module Users into module Users with an explicit singleton override yields
a marker for that class with scope singleton and no unwrap key. -/
theorem inject_returns_marker_witness :
    ((createModule "Users" 0).Service.scope = Scope.invoke) ∧
    (tokenizedDependency (createModule "Users" 0).Service Scope.invoke none).token
      = (createModule "Users" 0).Service ∧
    ((inject "Users" (createModule "Users" 0).Service
        (some Scope.singleton)).toOption.map UnresolvedDependency.scope
      = some Scope.singleton) :=
  ⟨rfl,
   (inject_returns_marker (createModule "Users" 0).Service Scope.invoke none
      "Users" (createModule "Users" 0).Service (some Scope.singleton)
      (tokenizedDependency (createModule "Users" 0).Service Scope.singleton none)
      (by rfl)).1,
   by decide⟩

/-- C10: the role base classes declared by createModule carry these fixed
default lifecycles, and an inject with no explicit scope argument yields a
marker with the corresponding scope: Facade, Controller and Class are
transient; Service and Repo are invoke; Singleton is singleton. -/
theorem createModule_default_scopes (moduleName : String) (base : Nat) :
    ((createModule moduleName base).Facade.scope = Scope.transient ∧
     (createModule moduleName base).Controller.scope = Scope.transient ∧
     (createModule moduleName base).Class.scope = Scope.transient ∧
     (createModule moduleName base).Service.scope = Scope.invoke ∧
     (createModule moduleName base).Repo.scope = Scope.invoke ∧
     (createModule moduleName base).Singleton.scope = Scope.singleton) ∧
    ((inject moduleName (createModule moduleName base).Facade none).toOption.map
        UnresolvedDependency.scope = some Scope.transient ∧
     (inject moduleName (createModule moduleName base).Controller none).toOption.map
        UnresolvedDependency.scope = some Scope.transient ∧
     (inject moduleName (createModule moduleName base).Class none).toOption.map
        UnresolvedDependency.scope = some Scope.transient ∧
     (inject moduleName (createModule moduleName base).Service none).toOption.map
        UnresolvedDependency.scope = some Scope.invoke ∧
     (inject moduleName (createModule moduleName base).Repo none).toOption.map
        UnresolvedDependency.scope = some Scope.invoke ∧
     (inject moduleName (createModule moduleName base).Singleton none).toOption.map
        UnresolvedDependency.scope = some Scope.singleton) := by
  refine ⟨⟨rfl, rfl, rfl, rfl, rfl, rfl⟩, ?_⟩
  refine ⟨?_, ?_, ?_, ?_, ?_, ?_⟩ <;>
    · simp only [inject, createModule, tokenizedDependency]
      rw [if_neg (by simp)]
      rfl

/-- Concrete instantiation of the default-scope theorem for module Users. -/
theorem createModule_default_scopes_witness :
    (createModule "Users" 0).Repo.scope = Scope.invoke :=
  (createModule_default_scopes "Users" 0).1.2.2.2.2.1

/-- A fragment of the JavaScript value universe, sufficient to state the
marker predicate getInjectionPoint (src/src/kernel-invoke.ts). An
UnresolvedDependency instance is its own tagged variant, because instanceof
is a check of the value's construction, not of its shape; obj models any
plain object with named fields, which may structurally mimic a marker
without being one; prim models primitive values. -/
inductive JsValue where
  | dep (d : UnresolvedDependency)
  | obj (fields : List (String × JsValue))
  | prim (s : String)

/-- getInjectionPoint from src/src/kernel-invoke.ts: if v instanceof
UnresolvedDependency return v, else return null (modelled as none). -/
def getInjectionPoint : JsValue → Option JsValue
  | JsValue.dep d => some (JsValue.dep d)
  | JsValue.obj _ => none
  | JsValue.prim _ => none

/-- C8: getInjectionPoint returns the value itself exactly when the value is
an UnresolvedDependency instance produced by tokenizedDependency, and
returns null for every other value, including plain objects whose fields
structurally mimic a marker. -/
theorem getInjectionPoint_tagged (v : JsValue) :
    (getInjectionPoint v = some v ↔ ∃ d, v = JsValue.dep d) ∧
    (∀ fields, getInjectionPoint (JsValue.obj fields) = none) ∧
    (∀ c s u, getInjectionPoint (JsValue.dep (tokenizedDependency c s u)) =
      some (JsValue.dep (tokenizedDependency c s u))) := by
  refine ⟨?_, fun _ => rfl, fun _ _ _ => rfl⟩
  cases v with
  | dep d => exact ⟨fun _ => ⟨d, rfl⟩, fun _ => rfl⟩
  | obj fields =>
      simp only [getInjectionPoint]
      constructor
      · intro hc
        cases hc
      · rintro ⟨d, hd⟩
        cases hd
  | prim s =>
      simp only [getInjectionPoint]
      constructor
      · intro hc
        cases hc
      · rintro ⟨d, hd⟩
        cases hd

/-- Concrete instantiation of the marker-predicate theorem: a plain object
with token, scope and unwrap fields is not recognized as a marker. -/
theorem getInjectionPoint_tagged_witness :
    getInjectionPoint (JsValue.obj
      [("token", JsValue.prim "UserRepo"), ("scope", JsValue.prim "invoke"),
       ("unwrap", JsValue.prim "db")]) = none :=
  (getInjectionPoint_tagged (JsValue.prim "x")).2.1
    [("token", JsValue.prim "UserRepo"), ("scope", JsValue.prim "invoke"),
     ("unwrap", JsValue.prim "db")]

/-- Association-list lookup, used to model JavaScript property and Map access
throughout this development. -/
def alookup {α β : Type} [DecidableEq α] (k : α) : List (α × β) → Option β
  | [] => none
  | (k₁, v) :: rest => if k₁ = k then some v else alookup k rest

/-- The fragment of the process environment read by isDevStableEnabled
(src/src/concerns/devstable.ts). -/
structure DevEnv where
  vlaDevStable : Option String
  nodeEnv : Option String
deriving DecidableEq, Repr

/-- isDevStableEnabled from src/src/concerns/devstable.ts: true when
VLA_DEV_STABLE is "1", else true exactly when NODE_ENV is not "production". -/
def isDevStableEnabled (e : DevEnv) : Bool :=
  if e.vlaDevStable = some "1" then true
  else decide (e.nodeEnv ≠ some "production")

/-- The key prefix used by devStable on globalThis
(src/src/concerns/devstable.ts). -/
def devStableKeyBase : String := "__vla_dev_stable__"

/-- The mutable fields of globalThis touched by devStable, as an association
list from property name to stored value; stored values range over an opaque
Nat domain. -/
def GlobalObj : Type := List (String × Nat)

/-- devStable from src/src/concerns/devstable.ts. The initializer is
modelled by the value it would produce; the Bool in the result records
whether the initializer was invoked by this call. When dev-stability is
disabled the initializer runs and global state is untouched; when enabled,
the value stored on globalThis under the prefixed key is returned if
present, and otherwise the initializer runs and its result is stored there. -/
def devStable (e : DevEnv) (g : GlobalObj) (key : String) (initVal : Nat) :
    Nat × GlobalObj × Bool :=
  if isDevStableEnabled e then
    match alookup (devStableKeyBase ++ key) g with
    | some v => (v, g, false)
    | none => (initVal, (devStableKeyBase ++ key, initVal) :: g, true)
  else (initVal, g, true)

/-- A sequence of devStable calls against one process: returns the final
global state and the per-call log of (key, whether the initializer ran). -/
def devStableRun (e : DevEnv) (g : GlobalObj) :
    List (String × Nat) → GlobalObj × List (String × Bool)
  | [] => (g, [])
  | (k, a) :: rest =>
    let step := devStable e g k a
    let next := devStableRun e step.2.1 rest
    (next.1, (k, step.2.2) :: next.2)

/-- How many calls in a devStable log ran the initializer for a given key. -/
def invokedFor (k : String) (log : List (String × Bool)) : Nat :=
  log.countP (fun p => decide (p.1 = k) && p.2)

/-- Entries already stored on globalThis survive any devStable call. -/
theorem alookup_devStable_preserved (e : DevEnv) (g : GlobalObj)
    (key q : String) (a w : Nat) (h : alookup q g = some w) :
    alookup q (devStable e g key a).2.1 = some w := by
  unfold devStable
  split
  · cases hl : alookup (devStableKeyBase ++ key) g with
    | some v => simpa [hl] using h
    | none =>
        simp only [hl, alookup]
        split
        · rename_i heq
          rw [heq] at hl
          rw [hl] at h
          cases h
        · exact h
  · exact h

/-- Once the prefixed key is present on globalThis, no later devStable call
in a run ever invokes the initializer for that key. -/
theorem devStableRun_no_invoke_of_present (e : DevEnv) (g : GlobalObj)
    (k : String) (calls : List (String × Nat))
    (he : isDevStableEnabled e = true)
    (hp : alookup (devStableKeyBase ++ k) g ≠ none) :
    invokedFor k (devStableRun e g calls).2 = 0 := by
  induction calls generalizing g with
  | nil => rfl
  | cons c rest ih =>
      obtain ⟨k₁, a⟩ := c
      obtain ⟨w, hw⟩ : ∃ w, alookup (devStableKeyBase ++ k) g = some w := by
        cases hl : alookup (devStableKeyBase ++ k) g with
        | some v => exact ⟨v, rfl⟩
        | none => exact absurd hl hp
      by_cases hk : k₁ = k
      · subst hk
        simp only [devStableRun, devStable, he, if_pos, hw, invokedFor,
          List.countP_cons]
        simp only [invokedFor] at ih
        simp only [Bool.and_false, if_neg]
        simpa using ih g (by rw [hw]; exact fun hc => Option.noConfusion hc)
      · simp only [devStableRun, invokedFor, List.countP_cons]
        have hpres : alookup (devStableKeyBase ++ k)
            (devStable e g k₁ a).2.1 = some w :=
          alookup_devStable_preserved e g k₁ (devStableKeyBase ++ k) a w hw
        simp only [invokedFor] at ih
        have hrest := ih (devStable e g k₁ a).2.1
          (by rw [hpres]; exact fun hc => Option.noConfusion hc)
        simp [hk, hrest]

/-- C9: if dev-stability is disabled, devStable runs the initializer and
neither reads nor writes global state; if enabled, a call finding the
prefixed key on globalThis returns the stored value without running the
initializer, a call finding nothing runs the initializer and stores its
result under the prefixed key, across any sequence of calls the initializer
runs at most once per key process-wide, and a stored entry is never changed
by any later call, so every later call with the same key returns the
identical stored value. -/
theorem devStable_spec (e : DevEnv) (g : GlobalObj) (key q : String)
    (a w : Nat) (calls : List (String × Nat)) :
    (isDevStableEnabled e = false → devStable e g key a = (a, g, true)) ∧
    (isDevStableEnabled e = true →
      (∀ v, alookup (devStableKeyBase ++ key) g = some v →
        devStable e g key a = (v, g, false)) ∧
      (alookup (devStableKeyBase ++ key) g = none →
        devStable e g key a = (a, (devStableKeyBase ++ key, a) :: g, true)) ∧
      invokedFor key (devStableRun e g calls).2 ≤ 1) ∧
    (alookup q g = some w → alookup q (devStable e g key a).2.1 = some w) := by
  refine ⟨?_, ?_, alookup_devStable_preserved e g key q a w⟩
  · intro hd
    simp [devStable, hd]
  · intro he
    refine ⟨?_, ?_, ?_⟩
    · intro v hv
      simp [devStable, he, hv]
    · intro hn
      simp [devStable, he, hn]
    · induction calls generalizing g with
      | nil => exact Nat.zero_le 1
      | cons c rest ih =>
          obtain ⟨k₁, b⟩ := c
          cases hl : alookup (devStableKeyBase ++ k₁) g with
          | some v =>
              simp only [devStableRun, devStable, he, if_pos, hl, invokedFor,
                List.countP_cons]
              simp only [invokedFor] at ih
              simpa using ih g
          | none =>
              by_cases hk : k₁ = key
              · subst hk
                simp only [devStableRun, devStable, he, if_pos, hl, invokedFor,
                  List.countP_cons]
                have hz := devStableRun_no_invoke_of_present e
                  ((devStableKeyBase ++ k₁, b) :: g) k₁ rest he
                  (by simp [alookup])
                simp only [invokedFor] at hz
                simp [hz]
              · simp only [devStableRun, devStable, he, if_pos, hl, invokedFor,
                  List.countP_cons]
                simp only [invokedFor] at ih
                have := ih ((devStableKeyBase ++ k₁, b) :: g)
                simpa [hk] using this

/-- Concrete instantiation of the devStable theorem: with VLA_DEV_STABLE set
to "1", a first call for key db stores the initializer result under the
prefixed key and a second call returns the identical stored value without
running the initializer again. -/
theorem devStable_spec_witness :
    devStable ⟨some "1", some "production"⟩ [] "db" 7 =
      (7, [(devStableKeyBase ++ "db", 7)], true) ∧
    devStable ⟨some "1", some "production"⟩ [(devStableKeyBase ++ "db", 7)]
      "db" 9 = (7, [(devStableKeyBase ++ "db", 7)], false) :=
  ⟨((devStable_spec ⟨some "1", some "production"⟩ [] "db" "q" 7 0 []).2.1
      (by rfl)).2.1 (by rfl),
   ((devStable_spec ⟨some "1", some "production"⟩
        [(devStableKeyBase ++ "db", 7)] "db" "q" 9 0 []).2.1 (by rfl)).1 7
      (by simp [alookup])⟩

/-- Modelled from the spec: primitive argument values passed to memoized
functions (the memoization engine implementation file is not among the
sources at hand). -/
inductive ArgVal where
  | str (s : String)
  | num (n : Int)
  | boolean (b : Bool)
deriving DecidableEq, Repr

/-- Modelled from the spec: a call argument is a single scalar or a
structured (keyed) argument given as a list of named fields in source
order. -/
inductive Arg where
  | scalar (v : ArgVal)
  | keyed (fields : List (String × ArgVal))
deriving DecidableEq, Repr

/-- Modelled from the spec: the derived cache key. A single scalar argument
uses its own value as the key; a keyed argument is serialized
order-independently (object hashing), modelled as the multiset of its named
fields. -/
inductive MemoKey where
  | scalar (v : ArgVal)
  | keyed (fields : Multiset (String × ArgVal))
deriving DecidableEq

/-- Modelled from the spec: argument-key derivation. -/
def argKey : Arg → MemoKey
  | Arg.scalar v => MemoKey.scalar v
  | Arg.keyed fs => MemoKey.keyed (fs : Multiset (String × ArgVal))

/-- Two arguments denote the same value: equal scalars, or keyed arguments
whose field lists are reorderings of one another. -/
def argEquiv : Arg → Arg → Prop
  | Arg.scalar v, Arg.scalar w => v = w
  | Arg.keyed fs, Arg.keyed gs => fs.Perm gs
  | Arg.scalar _, Arg.keyed _ => False
  | Arg.keyed _, Arg.scalar _ => False

/-- C5: argument-key derivation is deterministic and order-independent for
keyed arguments, collapses exactly the arguments that denote the same value
(so distinct values never collide on one key), and uses a single scalar
argument's own value as its key. -/
theorem argKey_characterization (a b : Arg) :
    (argKey a = argKey b ↔ argEquiv a b) ∧
    (∀ v, argKey (Arg.scalar v) = MemoKey.scalar v) := by
  refine ⟨?_, fun _ => rfl⟩
  cases a <;> cases b <;>
    simp [argKey, argEquiv, Multiset.coe_eq_coe]

/-- Concrete instantiation of the key-derivation theorem: the keyed arguments
with fields a=1, b=2 and b=2, a=1 receive the same cache key. -/
theorem argKey_characterization_witness :
    argKey (Arg.keyed [("a", ArgVal.num 1), ("b", ArgVal.num 2)]) =
      argKey (Arg.keyed [("b", ArgVal.num 2), ("a", ArgVal.num 1)]) :=
  (argKey_characterization
      (Arg.keyed [("a", ArgVal.num 1), ("b", ArgVal.num 2)])
      (Arg.keyed [("b", ArgVal.num 2), ("a", ArgVal.num 1)])).1.mpr
    (List.Perm.swap ("b", ArgVal.num 2) ("a", ArgVal.num 1) [])

/-- Modelled from the spec: a memo cache entry is a settled value or a
pending (in-flight) result; pending results carry an identity so distinct
in-flight promises are distinguishable. -/
inductive MemoResult where
  | value (v : Nat)
  | pending (pid : Nat)
deriving DecidableEq, Repr

/-- Modelled from the spec: the state of one memoized function on one owning
instance: its argument-keyed cache, the number of invocations of the wrapped
function so far, and the allocator for pending-result identities. -/
structure MemoState where
  cache : List (MemoKey × MemoResult)
  calls : Nat
  nextPid : Nat
deriving DecidableEq

/-- Removal of every entry under a key from an association list. -/
def removeEntry {α β : Type} [DecidableEq α] (k : α) :
    List (α × β) → List (α × β)
  | [] => []
  | (k₁, v) :: rest =>
      if k₁ = k then removeEntry k rest else (k₁, v) :: removeEntry k rest

/-- Modelled from the spec: the memoized call. On a live entry it returns the
stored entry unchanged (the same pending result if still in flight) without
invoking the wrapped function; on a miss it invokes the wrapped function and
stores the (still pending) result under the key immediately, before the
result settles. -/
def memoCall (st : MemoState) (k : MemoKey) : MemoResult × MemoState :=
  match alookup k st.cache with
  | some r => (r, st)
  | none =>
      (MemoResult.pending st.nextPid,
        ⟨(k, MemoResult.pending st.nextPid) :: st.cache,
          st.calls + 1, st.nextPid + 1⟩)

/-- Modelled from the spec: fresh always invokes the wrapped function and
overwrites the entry with the new (pending) result. -/
def freshCall (st : MemoState) (k : MemoKey) : MemoResult × MemoState :=
  (MemoResult.pending st.nextPid,
    ⟨(k, MemoResult.pending st.nextPid) :: removeEntry k st.cache,
      st.calls + 1, st.nextPid + 1⟩)

/-- Modelled from the spec: prime(args).value(v) with a pending result v sets
the entry for the key without invoking the wrapped function. -/
def primePending (st : MemoState) (k : MemoKey) (pid : Nat) : MemoState :=
  ⟨(k, MemoResult.pending pid) :: removeEntry k st.cache,
    st.calls, st.nextPid⟩

/-- Removal of every cache entry holding a given pending result. -/
def evictPending (pid : Nat) :
    List (MemoKey × MemoResult) → List (MemoKey × MemoResult)
  | [] => []
  | (k, r) :: rest =>
      if r = MemoResult.pending pid then evictPending pid rest
      else (k, r) :: evictPending pid rest

/-- Modelled from the spec: a pending result settles successfully; entries
holding it become settled values and are kept. -/
def settleOk (st : MemoState) (pid : Nat) (v : Nat) : MemoState :=
  ⟨st.cache.map (fun p =>
      if p.2 = MemoResult.pending pid then (p.1, MemoResult.value v) else p),
    st.calls, st.nextPid⟩

/-- Modelled from the spec: a pending result fails; every cache entry holding
it is removed automatically. The failure itself reaches whoever holds the
pending result, which by construction includes the caller of the call that
stored it. -/
def settleFail (st : MemoState) (pid : Nat) : MemoState :=
  ⟨evictPending pid st.cache, st.calls, st.nextPid⟩

theorem alookup_evictPending_of_none {pid : Nat} {k : MemoKey}
    {l : List (MemoKey × MemoResult)} (h : alookup k l = none) :
    alookup k (evictPending pid l) = none := by
  induction l with
  | nil => rfl
  | cons p rest ih =>
      obtain ⟨k₁, r⟩ := p
      simp only [alookup] at h
      split at h
      · cases h
      · simp only [evictPending]
        split
        · exact ih h
        · simp only [alookup]
          rw [if_neg (by assumption)]
          exact ih h

theorem alookup_removeEntry_self {α β : Type} [DecidableEq α] (k : α)
    (l : List (α × β)) : alookup k (removeEntry k l) = none := by
  induction l with
  | nil => rfl
  | cons p rest ih =>
      obtain ⟨k₁, v⟩ := p
      simp only [removeEntry]
      split
      · exact ih
      · simp only [alookup]
        rw [if_neg (by assumption)]
        exact ih

/-- C4: a memoized call with a live entry returns the stored entry, including
the same still-pending result, without a second invocation of the wrapped
function; on a miss the wrapped function runs once and its still-pending
result is stored under the key before it settles, so two calls with equal
keys invoke the wrapped function exactly once while calls with distinct keys
invoke it once each. -/
theorem memoCall_single_execution (st : MemoState) (k k₂ : MemoKey) :
    (∀ r, alookup k st.cache = some r → memoCall st k = (r, st)) ∧
    (alookup k st.cache = none →
      (memoCall st k).1 = MemoResult.pending st.nextPid ∧
      (memoCall st k).2.calls = st.calls + 1 ∧
      alookup k (memoCall st k).2.cache =
        some (MemoResult.pending st.nextPid) ∧
      memoCall (memoCall st k).2 k = ((memoCall st k).1, (memoCall st k).2)) ∧
    (alookup k st.cache = none → alookup k₂ st.cache = none → k ≠ k₂ →
      (memoCall (memoCall st k).2 k₂).2.calls = st.calls + 2) := by
  refine ⟨?_, ?_, ?_⟩
  · intro r hr
    simp [memoCall, hr]
  · intro hn
    refine ⟨by simp [memoCall, hn], by simp [memoCall, hn], ?_, ?_⟩
    · simp [memoCall, hn, alookup]
    · simp [memoCall, hn, alookup]
  · intro hn hn₂ hne
    have : alookup k₂ ((k, MemoResult.pending st.nextPid) :: st.cache)
        = none := by
      simp only [alookup]
      rw [if_neg hne]
      exact hn₂
    simp [memoCall, hn, this]

/-- Concrete instantiation of the single-execution theorem: from an empty
cache, calling with key "1" twice performs one underlying invocation and the
second call returns the stored entry; calling with "1" then "2" performs two
invocations. -/
theorem memoCall_single_execution_witness :
    memoCall (memoCall ⟨[], 0, 0⟩ (argKey (Arg.scalar (ArgVal.str "1")))).2
        (argKey (Arg.scalar (ArgVal.str "1"))) =
      ((memoCall ⟨[], 0, 0⟩ (argKey (Arg.scalar (ArgVal.str "1")))).1,
       (memoCall ⟨[], 0, 0⟩ (argKey (Arg.scalar (ArgVal.str "1")))).2) ∧
    (memoCall (memoCall ⟨[], 0, 0⟩ (argKey (Arg.scalar (ArgVal.str "1")))).2
        (argKey (Arg.scalar (ArgVal.str "2")))).2.calls = 0 + 2 :=
  ⟨((memoCall_single_execution ⟨[], 0, 0⟩
        (argKey (Arg.scalar (ArgVal.str "1")))
        (argKey (Arg.scalar (ArgVal.str "2")))).2.1 rfl).2.2.2,
   (memoCall_single_execution ⟨[], 0, 0⟩
        (argKey (Arg.scalar (ArgVal.str "1")))
        (argKey (Arg.scalar (ArgVal.str "2")))).2.2 rfl rfl (by decide)⟩

/-- C6: when a stored pending result fails, the cache entry for its key is
removed automatically, so the next call with that key re-invokes the wrapped
function; this holds for entries stored by the memoized call, by
prime(args).value with a pending value, and by fresh. The caller of the
failing call received exactly the pending result that fails (first
conjunct), so the failure is propagated to that caller, not swallowed; an
entry whose pending result settles successfully is kept as the settled
value. -/
theorem memo_failure_eviction (st : MemoState) (k : MemoKey) (pid v : Nat) :
    (alookup k st.cache = none →
      (memoCall st k).1 = MemoResult.pending st.nextPid ∧
      alookup k (settleFail (memoCall st k).2 st.nextPid).cache = none ∧
      (memoCall (settleFail (memoCall st k).2 st.nextPid) k).2.calls =
        st.calls + 2 ∧
      alookup k (settleOk (memoCall st k).2 st.nextPid v).cache =
        some (MemoResult.value v)) ∧
    (alookup k (settleFail (primePending st k pid) pid).cache = none ∧
      (memoCall (settleFail (primePending st k pid) pid) k).2.calls =
        st.calls + 1) ∧
    alookup k (settleFail (freshCall st k).2 st.nextPid).cache = none := by
  have hprime : alookup k (settleFail (primePending st k pid) pid).cache
      = none := by
    simp only [settleFail, primePending, evictPending, if_pos]
    exact alookup_evictPending_of_none (alookup_removeEntry_self k st.cache)
  refine ⟨?_, ⟨hprime, ?_⟩, ?_⟩
  · intro hn
    have hfail : alookup k (settleFail (memoCall st k).2 st.nextPid).cache
        = none := by
      simp only [memoCall, hn, settleFail, evictPending, if_pos]
      exact alookup_evictPending_of_none hn
    refine ⟨by simp [memoCall, hn], hfail, ?_, ?_⟩
    · simp [memoCall, hn, settleFail] at hfail ⊢
      simp [memoCall, hfail]
    · simp [memoCall, hn, settleOk, alookup]
  · have : (settleFail (primePending st k pid) pid).calls = st.calls := rfl
    simp [memoCall, hprime, this]
  · simp only [freshCall, settleFail, evictPending, if_pos]
    exact alookup_evictPending_of_none (alookup_removeEntry_self k st.cache)

/-- Concrete instantiation of the failure-eviction theorem: from an empty
cache, a call stores a pending result; when it fails the entry is gone and a
new call re-invokes the wrapped function, for a total of two invocations. -/
theorem memo_failure_eviction_witness :
    (memoCall (settleFail
        (memoCall ⟨[], 0, 0⟩ (argKey (Arg.scalar (ArgVal.str "1")))).2 0)
        (argKey (Arg.scalar (ArgVal.str "1")))).2.calls = 0 + 2 :=
  ((memo_failure_eviction ⟨[], 0, 0⟩
      (argKey (Arg.scalar (ArgVal.str "1"))) 3 5).1 rfl).2.2.1

/-- Modelled from the spec: the process-wide singleton cache tier of one
container family. It maps a producer identity to the constructed instance,
logs every construction, and allocates instance identities. It is owned by
the family root and shared by every container derived from the root via
scoped(). -/
structure Family where
  cache : List (Nat × Nat)
  constructed : List Nat
  nextInst : Nat
deriving DecidableEq, Repr

/-- Modelled from the spec: singleton resolution against the shared
process-wide tier: on a hit return the cached instance; on a miss construct
the producer, store the instance before returning, and log the
construction. -/
def resolveSingleton (fam : Family) (producer : Nat) : Nat × Family :=
  match alookup producer fam.cache with
  | some inst => (inst, fam)
  | none =>
      (fam.nextInst,
        ⟨(producer, fam.nextInst) :: fam.cache,
          producer :: fam.constructed, fam.nextInst + 1⟩)

/-- Modelled from the spec: resolving a singleton identity on a container
consults only the process-wide tier of that container's family; the
container performing the resolution contributes nothing else, which is what
makes every container of one family share its singletons. -/
def Kernel.resolveSingletonOn (_c : Kernel) (fam : Family) (producer : Nat) :
    Nat × Family :=
  resolveSingleton fam producer

/-- A sequence of singleton resolutions against one family tier. -/
def resolveAll (fam : Family) : List Nat → Family
  | [] => fam
  | x :: rest => resolveAll (resolveSingleton fam x).2 rest

/-- The freshly created tier of a new root container. -/
def emptyFamily : Family := ⟨[], [], 0⟩

theorem resolveAll_count_of_cached (reqs : List Nat) (fam : Family) (X : Nat)
    (h : alookup X fam.cache ≠ none) :
    (resolveAll fam reqs).constructed.count X = fam.constructed.count X := by
  induction reqs generalizing fam with
  | nil => rfl
  | cons y rest ih =>
      cases hl : alookup y fam.cache with
      | some i =>
          simp only [resolveAll, resolveSingleton, hl]
          exact ih fam h
      | none =>
          have hyX : y ≠ X := by
            intro he
            rw [he] at hl
            exact h hl
          simp only [resolveAll, resolveSingleton, hl]
          have hstill : alookup X
              ((y, fam.nextInst) :: fam.cache : List (Nat × Nat)) ≠ none := by
            simp only [alookup]
            rw [if_neg hyX]
            exact h
          rw [ih ⟨(y, fam.nextInst) :: fam.cache,
              y :: fam.constructed, fam.nextInst + 1⟩ hstill]
          simp [List.count_cons, hyX]

theorem resolveAll_count_le (reqs : List Nat) (fam : Family) (X : Nat) :
    (resolveAll fam reqs).constructed.count X ≤ fam.constructed.count X + 1 := by
  induction reqs generalizing fam with
  | nil => exact Nat.le_succ _
  | cons y rest ih =>
      cases hl : alookup y fam.cache with
      | some i =>
          simp only [resolveAll, resolveSingleton, hl]
          exact ih fam
      | none =>
          simp only [resolveAll, resolveSingleton, hl]
          by_cases hyX : y = X
          · subst hyX
            have hcached : alookup y
                ((y, fam.nextInst) :: fam.cache : List (Nat × Nat)) ≠ none := by
              simp [alookup]
            rw [resolveAll_count_of_cached rest
              ⟨(y, fam.nextInst) :: fam.cache,
                y :: fam.constructed, fam.nextInst + 1⟩ y hcached]
            simp [List.count_cons]
          · have := ih ⟨(y, fam.nextInst) :: fam.cache,
              y :: fam.constructed, fam.nextInst + 1⟩
            calc (resolveAll ⟨(y, fam.nextInst) :: fam.cache,
                    y :: fam.constructed, fam.nextInst + 1⟩ rest).constructed.count X
                ≤ (y :: fam.constructed).count X + 1 := this
              _ = fam.constructed.count X + 1 := by
                  simp [List.count_cons, hyX]

/-- C7: for a singleton identity, resolution on any two containers of the
same family (two sibling scoped children, or a child and the root) yields
the identical instance, because the process-wide tier is owned by the root
and shared by the whole family; and over any sequence of resolutions against
a fresh tier the producer is constructed at most once. -/
theorem singleton_shared_within_family (root : Kernel) (f₁ f₂ : Nat)
    (fam : Family) (X : Nat) (reqs : List Nat) :
    ((root.scoped f₂).resolveSingletonOn
        (((root.scoped f₁).resolveSingletonOn fam X).2) X).1 =
      ((root.scoped f₁).resolveSingletonOn fam X).1 ∧
    (root.resolveSingletonOn
        (((root.scoped f₁).resolveSingletonOn fam X).2) X).1 =
      ((root.scoped f₁).resolveSingletonOn fam X).1 ∧
    (resolveAll emptyFamily reqs).constructed.count X ≤ 1 := by
  have hsecond : (resolveSingleton (resolveSingleton fam X).2 X).1 =
      (resolveSingleton fam X).1 := by
    cases hl : alookup X fam.cache with
    | some i => simp [resolveSingleton, hl]
    | none => simp [resolveSingleton, hl, alookup]
  refine ⟨hsecond, hsecond, ?_⟩
  have := resolveAll_count_le reqs emptyFamily X
  simpa [emptyFamily] using this

/-- Concrete instantiation of the singleton-sharing theorem: two sibling
scoped children of one root observe the identical instance of producer 5. -/
theorem singleton_shared_within_family_witness :
    (((Kernel.mk 0 0).scoped 2).resolveSingletonOn
        ((((Kernel.mk 0 0).scoped 1).resolveSingletonOn emptyFamily 5).2) 5).1 =
      (((Kernel.mk 0 0).scoped 1).resolveSingletonOn emptyFamily 5).1 :=
  (singleton_shared_within_family ⟨0, 0⟩ 1 2 emptyFamily 5 [5, 5]).1

end Capsel
